import Mathlib

/-!
Verification of the claude-code-env request-routing engine.

The definitions below are a shallow embedding of the Go sources:
  - internal/provider/provider.go  (provider health state and selection)
  - internal/proxy/proxy.go        (request forwarding, error envelopes,
                                    response relay, client session sweep)
Time is modelled as a natural number of seconds; Go `time.Time` zero values
are modelled as `Option.none`.  Go maps with string keys are modelled as
association lists.
-/

namespace CCEnv

/-- config.Provider (internal/config): name, state ("on"/"off"), env map. -/
structure Provider where
  name : String
  state : String
  env : List (String × String)
deriving DecidableEq

/-- Go map lookup `m[k]` on a `map[string]string`: missing keys yield "". -/
def envGet (env : List (String × String)) (k : String) : String :=
  match env.lookup k with
  | some v => v
  | none => ""

/-- provider.ProviderState: runtime health state of one provider.
`disabledUntil = none` models the Go zero `time.Time` (IsZero). -/
structure ProviderState where
  provider : Provider
  failureCount : Nat
  lastFailureTime : Nat
  isDisabled : Bool
  disabledUntil : Option Nat
deriving DecidableEq

/-- provider.ProviderManager: provider list, routing strategy, robin cursor. -/
structure ProviderManager where
  providers : List ProviderState
  routingStrategy : String
  robinIndex : Nat
deriving DecidableEq

/-- 5 minutes, in seconds (the cooldown window of RecordFailure). -/
def fiveMinutes : Nat := 300

/-- Initial runtime state of one provider, as built by NewProviderManager:
disabled when the config state is not "on" or when both credential fields
(ANTHROPIC_AUTH_TOKEN, ANTHROPIC_API_KEY) are empty. -/
def initProviderState (p : Provider) : ProviderState :=
  let authToken := envGet p.env "ANTHROPIC_AUTH_TOKEN"
  let apiKey := envGet p.env "ANTHROPIC_API_KEY"
  let isDisabled := (p.state != "on") || (authToken == "" && apiKey == "")
  { provider := p
    failureCount := 0
    lastFailureTime := 0
    isDisabled := isDisabled
    disabledUntil := none }

/-- provider.NewProviderManager: robin cursor starts at 0. -/
def NewProviderManager (strategy : String) (cfgProviders : List Provider) :
    ProviderManager :=
  { providers := cfgProviders.map initProviderState
    routingStrategy := strategy
    robinIndex := 0 }

/-- One step of updateProviderStates: a disabled provider with a nonzero
deadline strictly in the past is re-enabled and its failure count reset.
`now.After d` in Go is the strict comparison `d < now`. -/
def updateOne (now : Nat) (ps : ProviderState) : ProviderState :=
  match ps.disabledUntil with
  | some d =>
      if ps.isDisabled && decide (d < now) then
        { ps with isDisabled := false, disabledUntil := none, failureCount := 0 }
      else ps
  | none => ps

/-- provider.updateProviderStates applied to the whole manager. -/
def updateProviderStates (now : Nat) (pm : ProviderManager) : ProviderManager :=
  { pm with providers := pm.providers.map (updateOne now) }

/-- Availability test used by getAvailableProviders:
configured "on" and not currently disabled. -/
def isAvailable (ps : ProviderState) : Bool :=
  ps.provider.state == "on" && !ps.isDisabled

/-- provider.getAvailableProviders. -/
def getAvailableProviders (pm : ProviderManager) : List ProviderState :=
  pm.providers.filter isAvailable

/-- provider.getNextDefault: first provider of the original order that is in
the available list (the source compares pointers; structural membership agrees
because availability depends only on the fields).  The `head?` branch models
the unreachable `availableProviders[0]` fallback. -/
def getNextDefault (providers available : List ProviderState) :
    Option ProviderState :=
  match providers.find? (fun ps => available.contains ps) with
  | some ps => some ps
  | none => available.head?

/-- provider.getNextRobin: with exactly one available provider return it
without touching the cursor; otherwise select `cursor mod len` and increment. -/
def getNextRobin (available : List ProviderState) (robinIndex : Nat) :
    Option ProviderState × Nat :=
  if available.length == 1 then
    (available.head?, robinIndex)
  else
    let i := robinIndex % available.length
    (available.get? i, i + 1)

/-- The state change RecordFailure applies to the matched provider:
increment the count, stamp the failure time, and on reaching 5 failures
disable for 5 minutes. -/
def bumpFailure (now : Nat) (ps : ProviderState) : ProviderState :=
  let ps1 := { ps with failureCount := ps.failureCount + 1,
                       lastFailureTime := now }
  if 5 ≤ ps1.failureCount then
    { ps1 with isDisabled := true,
               disabledUntil := some (now + fiveMinutes) }
  else ps1

/-- provider.RecordFailure on the provider list: the first provider with the
given name gets the failure update. -/
def recordFailureOne (now : Nat) (name : String) :
    List ProviderState → List ProviderState
  | [] => []
  | ps :: rest =>
    if ps.provider.name == name then bumpFailure now ps :: rest
    else ps :: recordFailureOne now name rest

/-- provider.RecordFailure. -/
def RecordFailure (pm : ProviderManager) (now : Nat) (name : String) :
    ProviderManager :=
  { pm with providers := recordFailureOne now name pm.providers }

/-- provider.RecordSuccess on the provider list: the first provider with the
given name gets its failure count reset to 0. -/
def recordSuccessOne (name : String) :
    List ProviderState → List ProviderState
  | [] => []
  | ps :: rest =>
    if ps.provider.name == name then
      (if 0 < ps.failureCount then { ps with failureCount := 0 } else ps) :: rest
    else ps :: recordSuccessOne name rest

/-- provider.RecordSuccess. -/
def RecordSuccess (pm : ProviderManager) (name : String) : ProviderManager :=
  { pm with providers := recordSuccessOne name pm.providers }

/-- provider.GetNextProvider: reconcile expired cooldowns, compute the
available set, fail when it is empty, else dispatch on the strategy
("robin" uses the cursor, everything else falls through to default). -/
def GetNextProvider (pm : ProviderManager) (now : Nat) :
    Option ProviderState × ProviderManager :=
  let pm1 := updateProviderStates now pm
  let available := getAvailableProviders pm1
  if available.isEmpty then
    (none, pm1)
  else if pm1.routingStrategy == "robin" then
    let r := getNextRobin available pm1.robinIndex
    (r.1, { pm1 with robinIndex := r.2 })
  else
    (getNextDefault pm1.providers available, pm1)

/-- The results of `n` consecutive GetNextProvider calls at a fixed time. -/
def selectN (pm : ProviderManager) (now : Nat) : Nat → List (Option ProviderState)
  | 0 => []
  | n + 1 =>
    let r := GetNextProvider pm now
    r.1 :: selectN r.2 now n

/-- First provider state with the given name (RecordFailure/RecordSuccess
match by name and stop at the first hit). -/
def findProvider (pm : ProviderManager) (name : String) : Option ProviderState :=
  pm.providers.find? (fun ps => ps.provider.name == name)

/-- A call against the Router's public interface. -/
inductive RouterCall where
  | select (now : Nat)
  | fail (now : Nat) (name : String)
  | succeed (name : String)
deriving DecidableEq

/-- Apply one Router call to the manager (dropping the selection result). -/
def applyCall (pm : ProviderManager) : RouterCall → ProviderManager
  | .select now => (GetNextProvider pm now).2
  | .fail now name => RecordFailure pm now name
  | .succeed name => RecordSuccess pm name

/-- Apply a sequence of Router calls. -/
def applyCalls (pm : ProviderManager) (calls : List RouterCall) : ProviderManager :=
  calls.foldl applyCall pm

/-! ## JSON model (encoding/json on `map[string]interface{}`)

proxy.modifyRequestModel unmarshals the request body into a
`map[string]interface{}`, overwrites the "model" key and re-marshals.
We model JSON documents with `JValue` (numbers restricted to integers —
enough for the bodies considered here), Go map building with
last-write-wins insertion, and `json.Marshal` of maps, which emits
object keys in sorted order with compact formatting. -/

/-- A JSON value.  Objects keep their fields as an association list. -/
inductive JValue where
  | null : JValue
  | bool (b : Bool) : JValue
  | num (n : Int) : JValue
  | str (s : String) : JValue
  | arr (elems : List JValue) : JValue
  | obj (fields : List (String × JValue)) : JValue

/-- Insert into a Go map modelled as an association list: overwrite the
existing binding in place, else append. -/
def mapInsert (m : List (String × JValue)) (k : String) (v : JValue) :
    List (String × JValue) :=
  if m.any (fun kv => kv.1 == k) then
    m.map (fun kv => if kv.1 == k then (k, v) else kv)
  else m ++ [(k, v)]

/-- Go map read: first (and, after `mapInsert` building, only) binding. -/
def mapLookup (m : List (String × JValue)) (k : String) : Option JValue :=
  m.lookup k

mutual
/-- json.Unmarshal into `interface{}` turns every JSON object into a Go map:
duplicate keys collapse, the last occurrence wins. -/
def goMapValue : JValue → JValue
  | .obj fs => .obj (goMapFields fs [])
  | .arr es => .arr (goMapList es)
  | v => v

def goMapList : List JValue → List JValue
  | [] => []
  | v :: vs => goMapValue v :: goMapList vs

def goMapFields : List (String × JValue) → List (String × JValue) →
    List (String × JValue)
  | [], acc => acc
  | (k, v) :: fs, acc => goMapFields fs (mapInsert acc k (goMapValue v))
end

/-- Code-point-wise strict order on character lists (the order of Go's
sort.Strings on the keys occurring here). -/
def charListLt : List Char → List Char → Bool
  | [], [] => false
  | [], _ :: _ => true
  | _ :: _, [] => false
  | c :: cs, d :: ds =>
    if c.toNat < d.toNat then true
    else if d.toNat < c.toNat then false
    else charListLt cs ds

/-- Strict string order used when emitting map keys. -/
def strLt (a b : String) : Bool := charListLt a.data b.data

/-- Insertion into a key-sorted association list (json.Marshal emits map
keys in `sort.Strings` order). -/
def insertByKey (kv : String × JValue) :
    List (String × JValue) → List (String × JValue)
  | [] => [kv]
  | x :: xs => if strLt kv.1 x.1 then kv :: x :: xs else x :: insertByKey kv xs

/-- Sort an association list by key (insertion sort). -/
def sortByKey (l : List (String × JValue)) : List (String × JValue) :=
  l.foldr insertByKey []

/-- Minimal JSON string escaping (quote, backslash, newline, tab) — the
fragment of json.Marshal string encoding exercised by the bodies here. -/
def escapeChar (c : Char) : String :=
  if c == '"' then "\\\""
  else if c == '\\' then "\\\\"
  else if c == '\n' then "\\n"
  else if c == '\t' then "\\t"
  else String.singleton c

def escapeString (s : String) : String :=
  s.data.foldl (fun acc c => acc ++ escapeChar c) ""

mutual
/-- Recursively sort every object's fields by key: json.Marshal emits the
keys of every (nested) Go map in sorted order, so marshalling a map value
is marshalling its key-sorted form. -/
def sortJson : JValue → JValue
  | .obj fs => .obj (sortByKey (sortJsonFields fs))
  | .arr es => .arr (sortJsonList es)
  | v => v

def sortJsonList : List JValue → List JValue
  | [] => []
  | v :: vs => sortJson v :: sortJsonList vs

def sortJsonFields : List (String × JValue) → List (String × JValue)
  | [] => []
  | (k, v) :: fs => (k, sortJson v) :: sortJsonFields fs
end

mutual
/-- json.Marshal of an `interface{}` value holding key-sorted objects:
compact output, fields in stored order. -/
def jsonMarshal : JValue → String
  | .null => "null"
  | .bool true => "true"
  | .bool false => "false"
  | .num n => toString n
  | .str s => "\"" ++ escapeString s ++ "\""
  | .arr es => "[" ++ marshalList es ++ "]"
  | .obj fs => "\x7b" ++ marshalFields fs ++ "\x7d"

def marshalList : List JValue → String
  | [] => ""
  | [v] => jsonMarshal v
  | v :: vs => jsonMarshal v ++ "," ++ marshalList vs

def marshalFields : List (String × JValue) → String
  | [] => ""
  | [(k, v)] => "\"" ++ escapeString k ++ "\":" ++ jsonMarshal v
  | (k, v) :: fs =>
      "\"" ++ escapeString k ++ "\":" ++ jsonMarshal v ++ "," ++ marshalFields fs
end

/-- JSON whitespace. -/
def isJsonWs (c : Char) : Bool :=
  c == ' ' || c == '\n' || c == '\t' || c == '\r'

def skipWs (cs : List Char) : List Char :=
  cs.dropWhile isJsonWs

/-- Parse the characters of a JSON string literal after the opening quote
(no escape sequences — bodies with escapes are outside this model and
parse to `none`). -/
def parseStringBody : List Char → Option (String × List Char)
  | [] => none
  | c :: cs =>
    if c == '"' then some ("", cs)
    else if c == '\\' then none
    else match parseStringBody cs with
      | some (s, rest) => some (String.singleton c ++ s, rest)
      | none => none

/-- Parse the longest digit run at the head of the input. -/
def parseNatAux : List Char → Nat → Nat × List Char
  | d :: ds, acc =>
    if d.isDigit then parseNatAux ds (acc * 10 + (d.toNat - '0'.toNat))
    else (acc, d :: ds)
  | [], acc => (acc, [])

def parseNat (cs : List Char) : Option (Nat × List Char) :=
  match cs with
  | c :: rest =>
    if c.isDigit then some (parseNatAux rest (c.toNat - '0'.toNat))
    else none
  | [] => none

mutual
/-- Fuel-bounded recursive-descent JSON parser (numbers restricted to
integers). -/
def parseValue : Nat → List Char → Option (JValue × List Char)
  | 0, _ => none
  | fuel + 1, cs =>
    match skipWs cs with
    | [] => none
    | c :: rest =>
      if c == '\x7b' then
        match skipWs rest with
        | '\x7d' :: r => some (.obj [], r)
        | _ => parseMembers fuel rest []
      else if c == '[' then
        match skipWs rest with
        | ']' :: r => some (.arr [], r)
        | _ => parseElems fuel rest []
      else if c == '"' then
        match parseStringBody rest with
        | some (s, r) => some (.str s, r)
        | none => none
      else if c == '-' then
        match parseNat rest with
        | some (n, r) => some (.num (-(n : Int)), r)
        | none => none
      else if c.isDigit then
        match parseNat (c :: rest) with
        | some (n, r) => some (.num (n : Int), r)
        | none => none
      else if c == 't' then
        match rest with
        | 'r' :: 'u' :: 'e' :: r => some (.bool true, r)
        | _ => none
      else if c == 'f' then
        match rest with
        | 'a' :: 'l' :: 's' :: 'e' :: r => some (.bool false, r)
        | _ => none
      else if c == 'n' then
        match rest with
        | 'u' :: 'l' :: 'l' :: r => some (.null, r)
        | _ => none
      else none

/-- Object members: `"key" : value` separated by commas, closed by a brace. -/
def parseMembers (fuel : Nat) (cs : List Char)
    (acc : List (String × JValue)) : Option (JValue × List Char) :=
  match fuel with
  | 0 => none
  | f + 1 =>
    match skipWs cs with
    | '"' :: rest =>
      match parseStringBody rest with
      | some (k, r1) =>
        match skipWs r1 with
        | ':' :: r2 =>
          match parseValue f r2 with
          | some (v, r3) =>
            match skipWs r3 with
            | ',' :: r4 => parseMembers f r4 (acc ++ [(k, v)])
            | '\x7d' :: r4 => some (.obj (acc ++ [(k, v)]), r4)
            | _ => none
          | none => none
        | _ => none
      | none => none
    | _ => none

/-- Array elements separated by commas, closed by a bracket. -/
def parseElems (fuel : Nat) (cs : List Char) (acc : List JValue) :
    Option (JValue × List Char) :=
  match fuel with
  | 0 => none
  | f + 1 =>
    match parseValue f cs with
    | some (v, r1) =>
      match skipWs r1 with
      | ',' :: r2 => parseElems f r2 (acc ++ [v])
      | ']' :: r2 => some (.arr (acc ++ [v]), r2)
      | _ => none
    | none => none
end

/-- Parse a complete JSON document (only trailing whitespace allowed). -/
def jsonParse (body : String) : Option JValue :=
  match parseValue (body.length + 1) body.data with
  | some (v, rest) => if (skipWs rest).isEmpty then some v else none
  | none => none

/-- json.Unmarshal into `map[string]interface{}`: fails unless the document
is a JSON object; object fields collapse into a map (last write wins). -/
def goUnmarshalObj (body : String) : Option (List (String × JValue)) :=
  match jsonParse body with
  | some (.obj fs) => some (goMapFields fs [])
  | _ => none

/-- proxy.modifyRequestModel: unmarshal the body into a map, overwrite the
"model" key with the target model, re-marshal.  Returns `none` exactly when
unmarshalling fails (the Go function then returns an error). -/
def modifyRequestModel (bodyBytes : String) (targetModel : String) :
    Option String :=
  match goUnmarshalObj bodyBytes with
  | none => none
  | some m =>
      some (jsonMarshal (sortJson (.obj (mapInsert m "model" (.str targetModel)))))

/-! ## Request forwarder (internal/proxy/proxy.go) -/

/-- proxy.AnthropicErrorResponse: the structured error envelope. -/
structure AnthropicErrorResponse where
  type : String
  errType : String
  message : String
deriving DecidableEq

/-- An HTTP response produced by the proxy: a status code together with
either a proxy-generated error envelope or a relayed upstream body
(`envelope = none`). -/
structure ProxyResponse where
  status : Nat
  envelope : Option AnthropicErrorResponse
deriving DecidableEq

/-- proxy.writeAnthropicError: envelope of fixed shape, message prefixed
with "CCENV ". -/
def writeAnthropicError (statusCode : Nat) (errorType message : String) :
    ProxyResponse :=
  { status := statusCode
    envelope := some { type := "error"
                       errType := errorType
                       message := "CCENV " ++ message } }

/-- A Router recording made by the forwarder for the selected provider. -/
inductive RecEvent where
  | failure (name : String)
  | success (name : String)
deriving DecidableEq

/-- The body actually forwarded: handleMessages rewrites the body when the
provider's env declares a nonempty ANTHROPIC_MODEL, else forwards it as is. -/
def rewriteBody (p : Provider) (body : String) : Option String :=
  let targetModel := envGet p.env "ANTHROPIC_MODEL"
  if targetModel != "" then modifyRequestModel body targetModel
  else some body

/-- Observable outcome of one handleMessages invocation. -/
structure HandleResult where
  response : ProxyResponse
  upstreamCalled : Bool
  recorded : List RecEvent
  pmAfter : ProviderManager
deriving DecidableEq

/-- proxy.handleMessages, step by step over the branches of the source:
method check, provider selection, body read, optional model rewrite,
upstream call (`upstream = none` models a transport error from
httpClient.Do, `some s` an upstream response with status `s`), outcome
recording, response relay.  `bodyReadOk = false` models a failing
io.ReadAll on the inbound body. -/
def handleMessages (pm : ProviderManager) (now : Nat) (method : String)
    (bodyReadOk : Bool) (body : String) (upstream : Option Nat) :
    HandleResult :=
  if method != "POST" then
    { response := writeAnthropicError 405 "invalid_request_error" "仅支持 POST 请求"
      upstreamCalled := false, recorded := [], pmAfter := pm }
  else
    match GetNextProvider pm now with
    | (none, pm1) =>
      { response := writeAnthropicError 503 "overloaded_error" "无可用的服务提供商"
        upstreamCalled := false, recorded := [], pmAfter := pm1 }
    | (some ps, pm1) =>
      let name := ps.provider.name
      if !bodyReadOk then
        { response := writeAnthropicError 400 "invalid_request_error" "读取请求体失败"
          upstreamCalled := false, recorded := [.failure name]
          pmAfter := RecordFailure pm1 now name }
      else
        match rewriteBody ps.provider body with
        | none =>
          { response := writeAnthropicError 500 "api_error" "修改请求模型失败"
            upstreamCalled := false, recorded := [.failure name]
            pmAfter := RecordFailure pm1 now name }
        | some _ =>
          match upstream with
          | none =>
            { response := writeAnthropicError 502 "api_error" "请求转发失败"
              upstreamCalled := true, recorded := [.failure name]
              pmAfter := RecordFailure pm1 now name }
          | some s =>
            if 500 ≤ s then
              { response := { status := s, envelope := none }
                upstreamCalled := true, recorded := [.failure name]
                pmAfter := RecordFailure pm1 now name }
            else
              { response := { status := s, envelope := none }
                upstreamCalled := true, recorded := [.success name]
                pmAfter := RecordSuccess pm1 name }

/-- proxy.handleCatchAll: every unmatched path gets a 404 envelope. -/
def handleCatchAll (path : String) : ProxyResponse :=
  writeAnthropicError 404 "invalid_request_error"
    ("路径 \x27" ++ path ++ "\x27 不存在或不被支持")

/-! ## Response relay (proxy.copyResponse) -/

/-- Events observable on the caller side of the relay. -/
inductive WriteEvent where
  | write (bytes : List Nat)
  | flush
deriving DecidableEq

/-- The flushing read/write loop of copyResponse: for each upstream read
that returned `n > 0` bytes, write them and flush immediately; a read
returning 0 bytes writes nothing; the loop stops at the end of the chunk
list (EOF or read error after the listed reads). -/
def copyLoopEvents : List (List Nat) → List WriteEvent
  | [] => []
  | c :: cs =>
    if 0 < c.length then .write c :: .flush :: copyLoopEvents cs
    else copyLoopEvents cs

/-- proxy.copyResponse body relay: when the writer supports http.Flusher the
chunked loop runs; otherwise io.Copy relays the whole body as one bulk
write with no flushes. -/
def copyResponse (hasFlusher : Bool) (chunks : List (List Nat)) :
    List WriteEvent :=
  if hasFlusher then copyLoopEvents chunks
  else [.write chunks.flatten]

/-- All bytes written to the caller, in order. -/
def writtenBytes (events : List WriteEvent) : List Nat :=
  match events with
  | [] => []
  | .write bs :: rest => bs ++ writtenBytes rest
  | .flush :: rest => writtenBytes rest

/-- Every write is immediately followed by a flush. -/
def eachWriteFlushed : List WriteEvent → Bool
  | [] => true
  | .write _ :: .flush :: rest => eachWriteFlushed rest
  | .write _ :: _ => false
  | .flush :: rest => eachWriteFlushed rest

/-! ## Client session tracker (proxy.ClientManager) -/

/-- proxy.ClientInfo. -/
structure ClientInfo where
  id : String
  registerAt : Nat
  lastPing : Nat
  pid : Nat
  hostname : String
deriving DecidableEq

/-- proxy.ClientManager: the session map as an association list (Go map:
keys unique), plus whether an empty-callback has been registered. -/
structure ClientManager where
  clients : List (String × ClientInfo)
  hasOnEmpty : Bool
deriving DecidableEq

/-- Result of one CleanupInactiveClients sweep: number removed, the new
manager, and how many times the empty-callback was invoked. -/
structure SweepResult where
  removedCount : Nat
  cm : ClientManager
  callbackInvocations : Nat
deriving DecidableEq

/-- Session inactivity test of the sweep: `now.Sub(LastPing) > timeout`
(truncated subtraction matches the Go comparison for a nonnegative
timeout). -/
def isInactive (timeout now : Nat) (kv : String × ClientInfo) : Bool :=
  timeout < now - kv.2.lastPing

/-- Go `delete(cm.clients, id)`. -/
def deleteClient (clients : List (String × ClientInfo)) (id : String) :
    List (String × ClientInfo) :=
  clients.filter (fun kv => kv.1 != id)

/-- proxy.CleanupInactiveClients: collect the ids of inactive sessions,
delete them, and fire the registered empty-callback once when the sweep
removed something and emptied the set. -/
def CleanupInactiveClients (cm : ClientManager) (timeout now : Nat) :
    SweepResult :=
  let toRemove := (cm.clients.filter (isInactive timeout now)).map Prod.fst
  let newClients := toRemove.foldl deleteClient cm.clients
  let callbacks :=
    if newClients.isEmpty && !toRemove.isEmpty && cm.hasOnEmpty then 1 else 0
  { removedCount := toRemove.length
    cm := { cm with clients := newClients }
    callbackInvocations := callbacks }

/-! ## Concrete fixtures used by witnesses and counterexamples -/

/-- A provider with a bearer token configured. -/
def provTok (name : String) : Provider :=
  ⟨name, "on", [("ANTHROPIC_AUTH_TOKEN", "tok-" ++ name)]⟩

/-- A provider with neither credential field. -/
def provNoCreds : Provider := ⟨"p", "on", []⟩

/-- A provider state in an active cooldown that expires at time 300. -/
def psCooled : ProviderState :=
  { provider := provTok "p"
    failureCount := 5
    lastFailureTime := 0
    isDisabled := true
    disabledUntil := some 300 }

/-- A manager whose only provider is configured "off". -/
def pmOff : ProviderManager :=
  NewProviderManager "default" [⟨"p", "off", [("ANTHROPIC_AUTH_TOKEN", "t")]⟩]

/-- A manager with two always-available providers (robin strategy). -/
def pmRobin : ProviderManager :=
  NewProviderManager "robin" [provTok "a", provTok "b"]

/-- Failover fixture: provider "a" disabled at construction (no
credentials), "b" and "c" available. -/
def pmABC : ProviderManager :=
  NewProviderManager "default" [⟨"a", "on", []⟩, provTok "b", provTok "c"]

/-- A manager whose only provider sits in an active cooldown until 300. -/
def pmCooled : ProviderManager := ⟨[psCooled], "default", 0⟩

/-! # Theorems -/

section Lemmas

/-- `find?` only looks at the predicate's values on list members. -/
theorem find?_congr_mem {α : Type} {l : List α} {p q : α → Bool}
    (h : ∀ a ∈ l, p a = q a) : l.find? p = l.find? q := by
  induction l with
  | nil => rfl
  | cons x xs ih =>
    have hx := h x (List.mem_cons_self x xs)
    by_cases hp : p x = true
    · rw [List.find?_cons_of_pos _ hp, List.find?_cons_of_pos _ (hx ▸ hp)]
    · rw [List.find?_cons_of_neg _ hp,
        List.find?_cons_of_neg _ (hx ▸ hp),
        ih (fun a ha => h a (List.mem_cons_of_mem _ ha))]

/-- `contains` with the decidable-equality BEq is membership. -/
theorem contains_iff_mem {α : Type} [DecidableEq α] (l : List α) (a : α) :
    l.contains a = true ↔ a ∈ l := by
  simp [List.contains]

/-- updateOne never changes the underlying provider config. -/
theorem updateOne_provider (now : Nat) (ps : ProviderState) :
    (updateOne now ps).provider = ps.provider := by
  unfold updateOne
  cases h : ps.disabledUntil with
  | none => rfl
  | some d => by_cases hc : (ps.isDisabled && decide (d < now)) = true <;>
      simp [hc]

/-- updateOne is the identity on providers that are not disabled. -/
theorem updateOne_of_not_disabled (now : Nat) (ps : ProviderState)
    (h : ps.isDisabled = false) : updateOne now ps = ps := by
  unfold updateOne
  cases hd : ps.disabledUntil with
  | none => rfl
  | some d => simp [h]

/-- updateOne is the identity on disabled providers with no deadline. -/
theorem updateOne_of_no_deadline (now : Nat) (ps : ProviderState)
    (h : ps.disabledUntil = none) : updateOne now ps = ps := by
  unfold updateOne
  rw [h]

/-- updateOne keeps a provider disabled while the deadline has not strictly
passed. -/
theorem updateOne_before_deadline (now : Nat) (ps : ProviderState) (d : Nat)
    (hd : ps.disabledUntil = some d)
    (hle : now ≤ d) : updateOne now ps = ps := by
  unfold updateOne
  rw [hd]
  have : ¬ d < now := Nat.not_lt.mpr hle
  simp [this]

/-- updateOne re-enables a disabled provider strictly after its deadline. -/
theorem updateOne_after_deadline (now : Nat) (ps : ProviderState) (d : Nat)
    (hdis : ps.isDisabled = true) (hd : ps.disabledUntil = some d)
    (hlt : d < now) :
    updateOne now ps =
      { ps with isDisabled := false, disabledUntil := none,
                failureCount := 0 } := by
  unfold updateOne
  rw [hd]
  simp [hdis, hlt]

/-- A disabled provider is never available. -/
theorem not_available_of_disabled (ps : ProviderState)
    (h : ps.isDisabled = true) : isAvailable ps = false := by
  simp [isAvailable, h]

end Lemmas

/-- C5 — Streaming fidelity: whatever the chunk boundaries of the upstream
body, the bytes copyResponse writes to the caller concatenate to exactly the
bytes read from upstream; with a Flusher each chunk is written and
immediately flushed, and without one the body is relayed as a single bulk
write. -/
theorem streaming_fidelity (chunks : List (List Nat)) :
    writtenBytes (copyResponse true chunks) = chunks.flatten
    ∧ eachWriteFlushed (copyResponse true chunks) = true
    ∧ copyResponse false chunks = [.write chunks.flatten] := by
  refine ⟨?_, ?_, rfl⟩
  · show writtenBytes (copyLoopEvents chunks) = chunks.flatten
    induction chunks with
    | nil => rfl
    | cons c cs ih =>
      by_cases h : 0 < c.length
      · simp [copyLoopEvents, h, writtenBytes, ih]
      · have hc : c = [] := List.length_eq_zero.mp (Nat.eq_zero_of_not_pos h)
        simp [copyLoopEvents, h, hc, ih]
  · show eachWriteFlushed (copyLoopEvents chunks) = true
    induction chunks with
    | nil => rfl
    | cons c cs ih =>
      by_cases h : 0 < c.length
      · simp [copyLoopEvents, h, eachWriteFlushed, ih]
      · simp [copyLoopEvents, h, ih]

section EnvelopeLemmas

/-- Every envelope emitted by writeAnthropicError carries type "error" and a
"CCENV "-prefixed message. -/
theorem writeAnthropicError_prefixed (st : Nat) (k m : String)
    (e : AnthropicErrorResponse)
    (h : (writeAnthropicError st k m).envelope = some e) :
    e.type = "error" ∧ ∃ rest, e.message = "CCENV " ++ rest := by
  have h2 : ({ type := "error", errType := k,
               message := "CCENV " ++ m } : AnthropicErrorResponse) = e :=
    Option.some.inj h
  subst h2
  exact ⟨rfl, m, rfl⟩

end EnvelopeLemmas

/-- C10 — Error message prefix: every error envelope generated by the proxy
itself (wrong method, no provider, body read failure, rewrite failure,
transport failure, catch-all 404) has type "error" and a message beginning
with the literal prefix "CCENV "; a relayed upstream response carries no
proxy envelope at all. -/
theorem proxy_errors_ccenv_prefixed (pm : ProviderManager) (now : Nat)
    (method : String) (bodyReadOk : Bool) (body : String)
    (upstream : Option Nat) (path : String) :
    (∀ e, (handleMessages pm now method bodyReadOk body upstream).response.envelope
        = some e → e.type = "error" ∧ ∃ rest, e.message = "CCENV " ++ rest)
    ∧ (∀ e, (handleCatchAll path).envelope = some e →
        e.type = "error" ∧ ∃ rest, e.message = "CCENV " ++ rest)
    ∧ (∀ ps pm1 s, GetNextProvider pm now = (some ps, pm1) → method = "POST" →
        bodyReadOk = true → rewriteBody ps.provider body ≠ none →
        upstream = some s →
        (handleMessages pm now method bodyReadOk body upstream).response =
          { status := s, envelope := none }) := by
  refine ⟨?_, ?_, ?_⟩
  · intro e he
    unfold handleMessages at he
    split at he
    · exact writeAnthropicError_prefixed _ _ _ e he
    · split at he
      · exact writeAnthropicError_prefixed _ _ _ e he
      · split at he
        · exact writeAnthropicError_prefixed _ _ _ e he
        · split at he
          · exact writeAnthropicError_prefixed _ _ _ e he
          · split at he
            · exact writeAnthropicError_prefixed _ _ _ e he
            · split at he
              · simp at he
              · simp at he
  · intro e he
    exact writeAnthropicError_prefixed _ _ _ e he
  · intro ps pm1 s hg hm hb hr hu
    subst hm
    subst hb
    subst hu
    rcases hrw : rewriteBody ps.provider body with _ | mb
    · exact absurd hrw hr
    · unfold handleMessages
      rw [hg]
      by_cases h5 : 500 ≤ s <;> simp [hrw, h5]

/-- C10 witness: the catch-all 404 envelope at a concrete path. -/
theorem proxy_errors_ccenv_prefixed_witness :
    ({ type := "error", errType := "invalid_request_error",
       message := "CCENV 路径 \x27/nope\x27 不存在或不被支持" }
      : AnthropicErrorResponse).type = "error"
    ∧ ∃ rest,
      ({ type := "error", errType := "invalid_request_error",
         message := "CCENV 路径 \x27/nope\x27 不存在或不被支持" }
        : AnthropicErrorResponse).message = "CCENV " ++ rest :=
  (proxy_errors_ccenv_prefixed pmOff 0 "POST" true "" none "/nope").2.1 _ rfl

/-- C6 — No-provider scenario: when selection reports no available provider,
a POST to /v1/messages is answered 503 with an "overloaded_error" envelope
and no upstream call is made; with every provider configured "off" the
selection indeed reports no available provider. -/
theorem no_provider_503 (pm : ProviderManager) (now : Nat)
    (bodyReadOk : Bool) (body : String) (upstream : Option Nat)
    (hsel : (GetNextProvider pm now).1 = none) :
    ((handleMessages pm now "POST" bodyReadOk body upstream).response.status = 503)
    ∧ ((handleMessages pm now "POST" bodyReadOk body upstream).response.envelope
        = some { type := "error", errType := "overloaded_error",
                 message := "CCENV 无可用的服务提供商" })
    ∧ ((handleMessages pm now "POST" bodyReadOk body upstream).upstreamCalled = false)
    ∧ (∀ pm2 now2, (∀ ps ∈ pm2.providers, ¬ ps.provider.state = "on") →
        (GetNextProvider pm2 now2).1 = none) := by
  rcases hg : GetNextProvider pm now with ⟨o, pm1⟩
  have ho : o = none := by rw [hg] at hsel; exact hsel
  subst ho
  refine ⟨?_, ?_, ?_, ?_⟩
  · unfold handleMessages
    rw [hg]
    rfl
  · unfold handleMessages
    rw [hg]
    rfl
  · unfold handleMessages
    rw [hg]
    rfl
  · intro pm2 now2 hoff
    have hav : getAvailableProviders (updateProviderStates now2 pm2) = [] := by
      apply List.filter_eq_nil_iff.mpr
      intro q hq
      rcases List.mem_map.mp hq with ⟨p, hp, rfl⟩
      have hst : (updateOne now2 p).provider.state = p.provider.state := by
        rw [updateOne_provider]
      simp [isAvailable, hst]
      intro hcontra
      exact absurd hcontra (hoff p hp)
    simp [GetNextProvider, hav]

/-- C6 witness at a concrete all-off manager. -/
theorem no_provider_503_witness :
    (handleMessages pmOff 0 "POST" true "" none).response.status = 503 :=
  (no_provider_503 pmOff 0 true "" none (by decide)).1

section SelectionLemmas

/-- find? on a cons whose head satisfies the predicate. -/
theorem find?_cons_true {α : Type} (p : α → Bool) (x : α) (xs : List α)
    (hx : p x = true) : (x :: xs).find? p = some x := by
  simp [List.find?, hx]

/-- find? on a cons whose head falsifies the predicate. -/
theorem find?_cons_false {α : Type} (p : α → Bool) (x : α) (xs : List α)
    (hx : p x = false) : (x :: xs).find? p = xs.find? p := by
  simp [List.find?, hx]

/-- bumpFailure never changes the underlying provider config. -/
theorem bumpFailure_provider (now : Nat) (ps : ProviderState) :
    (bumpFailure now ps).provider = ps.provider := by
  unfold bumpFailure
  by_cases h : 5 ≤ ps.failureCount + 1 <;> simp [h]

/-- A provider selected by GetNextProvider is a member of the reconciled
provider list, is available, and the returned manager keeps the reconciled
providers and the strategy. -/
theorem GetNextProvider_sel (pm : ProviderManager) (now : Nat)
    (q : ProviderState) (pm1 : ProviderManager)
    (h : GetNextProvider pm now = (some q, pm1)) :
    q ∈ pm1.providers ∧ isAvailable q = true
    ∧ pm1.providers = (updateProviderStates now pm).providers
    ∧ pm1.routingStrategy = pm.routingStrategy := by
  have hmem : q ∈ getAvailableProviders (updateProviderStates now pm)
      ∧ pm1.providers = (updateProviderStates now pm).providers
      ∧ pm1.routingStrategy = pm.routingStrategy := by
    simp only [GetNextProvider] at h
    split at h
    · simp at h
    · split at h
      · -- robin branch
        have h1 := (Prod.mk.injEq _ _ _ _).mp h
        obtain ⟨hsel, hpm⟩ := h1
        subst hpm
        refine ⟨?_, rfl, rfl⟩
        unfold getNextRobin at hsel
        split at hsel
        · cases hav : getAvailableProviders (updateProviderStates now pm) with
          | nil => rw [hav] at hsel; simp at hsel
          | cons a rest =>
            rw [hav] at hsel
            simp at hsel
            subst hsel
            exact List.mem_cons_self _ _
        · have := List.get?_mem hsel
          exact this
      · -- default branch
        have h1 := (Prod.mk.injEq _ _ _ _).mp h
        obtain ⟨hsel, hpm⟩ := h1
        subst hpm
        refine ⟨?_, rfl, rfl⟩
        unfold getNextDefault at hsel
        split at hsel
        · next ps hFind =>
          have hq : ps = q := Option.some.inj hsel
          subst hq
          have hpred := List.find?_some hFind
          exact (contains_iff_mem _ _).mp hpred
        · cases hav : getAvailableProviders (updateProviderStates now pm) with
          | nil => rw [hav] at hsel; simp at hsel
          | cons a rest =>
            rw [hav] at hsel
            simp at hsel
            subst hsel
            exact List.mem_cons_self _ _
  obtain ⟨hmemAv, hprov, hstrat⟩ := hmem
  have h2 := List.mem_filter.mp hmemAv
  exact ⟨hprov ▸ h2.1, h2.2, hprov, hstrat⟩

/-- recordSuccessOne leaves the first provider matching the name with a zero
failure count and an unchanged provider config. -/
theorem recordSuccessOne_find (name : String) (l : List ProviderState)
    (ps : ProviderState)
    (h : l.find? (fun q => q.provider.name == name) = some ps) :
    ∃ q, (recordSuccessOne name l).find? (fun q2 => q2.provider.name == name)
            = some q
      ∧ q.failureCount = 0 ∧ q.provider = ps.provider := by
  induction l with
  | nil => simp at h
  | cons x xs ih =>
    by_cases hx : (x.provider.name == name) = true
    · rw [find?_cons_true (fun q => q.provider.name == name) x xs hx] at h
      have hxps : x = ps := Option.some.inj h
      subst hxps
      by_cases hc : 0 < x.failureCount
      · refine ⟨{ x with failureCount := 0 }, ?_, rfl, rfl⟩
        have hs : recordSuccessOne name (x :: xs) =
            { x with failureCount := 0 } :: xs := by
          simp [recordSuccessOne, hx, hc]
        rw [hs]
        exact find?_cons_true (fun q => q.provider.name == name)
          { x with failureCount := 0 } xs hx
      · have hc0 : x.failureCount = 0 := Nat.eq_zero_of_not_pos hc
        refine ⟨x, ?_, hc0, rfl⟩
        have hs : recordSuccessOne name (x :: xs) = x :: xs := by
          simp [recordSuccessOne, hx, hc]
        rw [hs]
        exact find?_cons_true (fun q => q.provider.name == name) _ xs hx
    · have hx' : (x.provider.name == name) = false := by
        simpa using hx
      rw [find?_cons_false (fun q => q.provider.name == name) x xs hx'] at h
      obtain ⟨q, hfind, hq0, hqp⟩ := ih h
      refine ⟨q, ?_, hq0, hqp⟩
      have hs : recordSuccessOne name (x :: xs) =
          x :: recordSuccessOne name xs := by
        simp [recordSuccessOne, hx]
      rw [hs,
        find?_cons_false (fun q => q.provider.name == name) x _ hx']
      exact hfind

/-- recordFailureOne applies bumpFailure to the first provider matching the
name. -/
theorem recordFailureOne_find (now : Nat) (name : String)
    (l : List ProviderState) (ps : ProviderState)
    (h : l.find? (fun q => q.provider.name == name) = some ps) :
    (recordFailureOne now name l).find? (fun q => q.provider.name == name)
      = some (bumpFailure now ps) := by
  induction l with
  | nil => simp at h
  | cons x xs ih =>
    by_cases hx : (x.provider.name == name) = true
    · rw [find?_cons_true (fun q => q.provider.name == name) x xs hx] at h
      have hxps : x = ps := Option.some.inj h
      subst hxps
      have hs : recordFailureOne now name (x :: xs) =
          bumpFailure now x :: xs := by
        simp [recordFailureOne, hx]
      have hx2 : ((bumpFailure now x).provider.name == name) = true := by
        rw [bumpFailure_provider]; exact hx
      rw [hs]
      exact find?_cons_true (fun q => q.provider.name == name) _ xs hx2
    · have hx' : (x.provider.name == name) = false := by
        simpa using hx
      rw [find?_cons_false (fun q => q.provider.name == name) x xs hx'] at h
      have hs : recordFailureOne now name (x :: xs) =
          x :: recordFailureOne now name xs := by
        simp [recordFailureOne, hx]
      rw [hs,
        find?_cons_false (fun q => q.provider.name == name) x _ hx']
      exact ih h

end SelectionLemmas

/-- C7 — Upstream outcome recording: a forwarded request that received an
upstream response relays the status as-is; a status ≥ 500 records exactly
one failure for the selected provider, any other status records exactly one
success and resets its failure counter. -/
theorem upstream_outcome_recording (pm : ProviderManager) (now : Nat)
    (body : String) (ps : ProviderState) (pm1 : ProviderManager) (s : Nat)
    (hsel : GetNextProvider pm now = (some ps, pm1))
    (hrw : rewriteBody ps.provider body ≠ none) :
    ((handleMessages pm now "POST" true body (some s)).upstreamCalled = true)
    ∧ ((handleMessages pm now "POST" true body (some s)).response =
        { status := s, envelope := none })
    ∧ (500 ≤ s → (handleMessages pm now "POST" true body (some s)).recorded
        = [.failure ps.provider.name])
    ∧ (s < 500 → (handleMessages pm now "POST" true body (some s)).recorded
        = [.success ps.provider.name]
      ∧ ∃ q, findProvider (handleMessages pm now "POST" true body (some s)).pmAfter
               ps.provider.name = some q ∧ q.failureCount = 0)
    ∧ ((handleMessages pm now "POST" true body (some s)).recorded.length = 1) := by
  rcases hrw2 : rewriteBody ps.provider body with _ | mb
  · exact absurd hrw2 hrw
  · have hred : handleMessages pm now "POST" true body (some s) =
        (if 500 ≤ s then
          { response := { status := s, envelope := none }
            upstreamCalled := true, recorded := [.failure ps.provider.name]
            pmAfter := RecordFailure pm1 now ps.provider.name }
         else
          { response := { status := s, envelope := none }
            upstreamCalled := true, recorded := [.success ps.provider.name]
            pmAfter := RecordSuccess pm1 ps.provider.name }) := by
      unfold handleMessages
      rw [hsel]
      simp [hrw2]
    by_cases h5 : 500 ≤ s
    · rw [hred, if_pos h5]
      refine ⟨rfl, rfl, fun _ => rfl, fun hlt => absurd h5 (Nat.not_le.mpr hlt), rfl⟩
    · rw [hred, if_neg h5]
      refine ⟨rfl, rfl, fun hge => absurd hge h5, fun _ => ⟨rfl, ?_⟩, rfl⟩
      obtain ⟨hmem, _hav, _hprov, _⟩ := GetNextProvider_sel pm now ps pm1 hsel
      have hsome : (pm1.providers.find?
          (fun q => q.provider.name == ps.provider.name)).isSome := by
        apply List.find?_isSome.mpr
        exact ⟨ps, hmem, by simp⟩
      rcases hfind : pm1.providers.find?
          (fun q => q.provider.name == ps.provider.name) with _ | p0
      · rw [hfind] at hsome; simp at hsome
      · obtain ⟨q, hq, hq0, _⟩ := recordSuccessOne_find _ _ _ hfind
        exact ⟨q, hq, hq0⟩

/-- C7 witness: a concrete 502-free run with upstream status 500. -/
theorem upstream_outcome_recording_witness :
    (handleMessages pmRobin 0 "POST" true "" (some 500)).recorded
      = [.failure "a"] :=
  (upstream_outcome_recording pmRobin 0 "" (initProviderState (provTok "a"))
    { pmRobin with robinIndex := 1 } 500 (by decide) (by decide)).2.2.1
    (by decide)

section DefaultStrategyLemmas

/-- updateProviderStates does not touch the routing strategy. -/
theorem updateProviderStates_strategy (now : Nat) (pm : ProviderManager) :
    (updateProviderStates now pm).routingStrategy = pm.routingStrategy := rfl

/-- Reconciliation is idempotent on a single provider state. -/
theorem updateOne_idem (now : Nat) (ps : ProviderState) :
    updateOne now (updateOne now ps) = updateOne now ps := by
  cases hd : ps.disabledUntil with
  | none =>
    rw [updateOne_of_no_deadline now ps hd, updateOne_of_no_deadline now ps hd]
  | some d =>
    by_cases hc : (ps.isDisabled && decide (d < now)) = true
    · have h1 : updateOne now ps =
          { ps with isDisabled := false, disabledUntil := none,
                    failureCount := 0 } := by
        unfold updateOne
        rw [hd]
        simp [hc]
      rw [h1, updateOne_of_no_deadline]
      rfl
    · have h1 : updateOne now ps = ps := by
        unfold updateOne
        rw [hd]
        simp [hc]
      rw [h1, h1]

/-- Reconciliation is idempotent on the whole manager. -/
theorem updateProviderStates_idem (now : Nat) (pm : ProviderManager) :
    updateProviderStates now (updateProviderStates now pm)
      = updateProviderStates now pm := by
  unfold updateProviderStates
  simp only [List.map_map]
  congr 1
  apply List.map_congr_left
  intro ps _
  exact updateOne_idem now ps

/-- The default strategy over the available sub-list selects the first
available provider in the original configuration order. -/
theorem getNextDefault_filter (l : List ProviderState) :
    getNextDefault l (l.filter isAvailable) = l.find? isAvailable := by
  unfold getNextDefault
  have hcong : l.find? (fun ps => (l.filter isAvailable).contains ps)
      = l.find? isAvailable := by
    apply find?_congr_mem
    intro a ha
    by_cases hpa : isAvailable a = true
    · have hmem : a ∈ l.filter isAvailable := List.mem_filter.mpr ⟨ha, hpa⟩
      rw [hpa]
      exact (contains_iff_mem _ _).mpr hmem
    · have hpa' : isAvailable a = false := by simpa using hpa
      rw [hpa']
      by_contra hcontra
      have : (l.filter isAvailable).contains a = true := by
        cases hcc : (l.filter isAvailable).contains a with
        | true => rfl
        | false => rw [hcc] at hcontra; exact absurd rfl hcontra
      have := (contains_iff_mem _ _).mp this
      have := (List.mem_filter.mp this).2
      rw [hpa'] at this
      exact Bool.noConfusion this
  rw [hcong]
  cases hf : l.find? isAvailable with
  | some ps => rfl
  | none =>
    have hall : ∀ a ∈ l, ¬ isAvailable a = true := by
      intro a ha
      have := List.find?_eq_none.mp hf a ha
      exact this
    have hnil : l.filter isAvailable = [] := List.filter_eq_nil_iff.mpr hall
    rw [hnil]
    rfl

/-- Under a non-robin strategy GetNextProvider returns the first available
provider (in configuration order) of the reconciled list. -/
theorem GetNextProvider_default_fst (pm : ProviderManager) (now : Nat)
    (hstrat : pm.routingStrategy = "default") :
    (GetNextProvider pm now).1
      = (updateProviderStates now pm).providers.find? isAvailable := by
  have hs : ((updateProviderStates now pm).routingStrategy == "robin") = false := by
    rw [updateProviderStates_strategy, hstrat]
    rfl
  simp only [GetNextProvider]
  split
  · next he =>
    have hnil : getAvailableProviders (updateProviderStates now pm) = [] :=
      List.isEmpty_iff.mp he
    have hall : ∀ a ∈ (updateProviderStates now pm).providers,
        ¬ isAvailable a = true := by
      have := List.filter_eq_nil_iff.mp hnil
      exact this
    rw [List.find?_eq_none.mpr hall]
  · rw [hs]
    simp only [Bool.false_eq_true, if_false]
    exact getNextDefault_filter _

/-- Under a non-robin strategy GetNextProvider returns the reconciled
manager unchanged. -/
theorem GetNextProvider_default_snd (pm : ProviderManager) (now : Nat)
    (hstrat : pm.routingStrategy = "default") :
    (GetNextProvider pm now).2 = updateProviderStates now pm := by
  have hs : ((updateProviderStates now pm).routingStrategy == "robin") = false := by
    rw [updateProviderStates_strategy, hstrat]
    rfl
  simp only [GetNextProvider]
  split
  · rfl
  · rw [hs]
    simp only [Bool.false_eq_true, if_false]

end DefaultStrategyLemmas

/-- C3 — Failover determinism: with strategy "default" every selection
returns the first provider in original configuration order that is "on" and
not disabled after reconciliation; a second selection returns the same
provider (no memory between calls); in particular, with providers
[a (unavailable), b (available), c] selection returns b, and with both a
and b unavailable it returns c. -/
theorem failover_determinism (pm : ProviderManager) (now : Nat)
    (hstrat : pm.routingStrategy = "default") :
    ((GetNextProvider pm now).1
        = (updateProviderStates now pm).providers.find? isAvailable)
    ∧ ((GetNextProvider (GetNextProvider pm now).2 now).1
        = (GetNextProvider pm now).1)
    ∧ (∀ a b c : ProviderState, ∀ pm2 : ProviderManager,
        pm2.providers = [a, b, c] → pm2.routingStrategy = "default" →
        (isAvailable (updateOne now a) = false →
         isAvailable (updateOne now b) = true →
         (GetNextProvider pm2 now).1 = some (updateOne now b))
        ∧ (isAvailable (updateOne now a) = false →
           isAvailable (updateOne now b) = false →
           isAvailable (updateOne now c) = true →
           (GetNextProvider pm2 now).1 = some (updateOne now c))) := by
  refine ⟨GetNextProvider_default_fst pm now hstrat, ?_, ?_⟩
  · rw [GetNextProvider_default_snd pm now hstrat]
    have hstrat2 : (updateProviderStates now pm).routingStrategy = "default" := by
      rw [updateProviderStates_strategy, hstrat]
    rw [GetNextProvider_default_fst _ now hstrat2,
      updateProviderStates_idem now pm]
    exact (GetNextProvider_default_fst pm now hstrat).symm
  · intro a b c pm2 hps hstrat2
    have hfst := GetNextProvider_default_fst pm2 now hstrat2
    have hlist : (updateProviderStates now pm2).providers =
        [updateOne now a, updateOne now b, updateOne now c] := by
      show (pm2.providers.map (updateOne now)) = _
      rw [hps]
      rfl
    constructor
    · intro ha hb
      rw [hfst, hlist,
        find?_cons_false isAvailable _ _ ha,
        find?_cons_true isAvailable _ _ hb]
    · intro ha hb hc
      rw [hfst, hlist,
        find?_cons_false isAvailable _ _ ha,
        find?_cons_false isAvailable _ _ hb,
        find?_cons_true isAvailable _ _ hc]

/-- C3 witness: with [a (no credentials), b, c] selection returns b. -/
theorem failover_determinism_witness :
    (GetNextProvider pmABC 0).1 = some (initProviderState (provTok "b")) := by
  have h := ((failover_determinism pmABC 0 rfl).2.2
    (initProviderState ⟨"a", "on", []⟩) (initProviderState (provTok "b"))
    (initProviderState (provTok "c")) pmABC rfl rfl).1 (by decide) (by decide)
  rw [h]
  decide

section RobinLemmas

/-- On an all-available list, reconciliation is the identity and the
available set is the whole list. -/
theorem allAvail_update (l : List ProviderState) (now : Nat)
    (hall : ∀ ps ∈ l, ps.isDisabled = false ∧ ps.provider.state = "on") :
    l.map (updateOne now) = l ∧ l.filter isAvailable = l := by
  constructor
  · have h1 : l.map (updateOne now) = l.map id :=
      List.map_congr_left (fun a ha =>
        updateOne_of_not_disabled now a (hall a ha).1)
    rw [h1, List.map_id]
  · apply List.filter_eq_self.mpr
    intro a ha
    have := hall a ha
    simp [isAvailable, this.1, this.2]

/-- One robin-strategy selection on an all-available list with in-range
cursor: returns the cursor's provider and advances the cursor. -/
theorem robin_step (l : List ProviderState) (now i : Nat)
    (hall : ∀ ps ∈ l, ps.isDisabled = false ∧ ps.provider.state = "on")
    (h2 : 2 ≤ l.length) (hi : i < l.length) :
    GetNextProvider ⟨l, "robin", i⟩ now = (l.get? i, ⟨l, "robin", i + 1⟩) := by
  obtain ⟨hmap, hfil⟩ := allAvail_update l now hall
  have hup : updateProviderStates now ⟨l, "robin", i⟩ = ⟨l, "robin", i⟩ := by
    show (⟨l.map (updateOne now), "robin", i⟩ : ProviderManager) = _
    rw [hmap]
  have hne : l.isEmpty = false := by
    cases l with
    | nil => simp at h2
    | cons a rest => rfl
  have hlen1 : (l.length == 1) = false := by
    have : l.length ≠ 1 := by omega
    simpa using this
  have hrobin : getNextRobin l i = (l.get? i, i + 1) := by
    unfold getNextRobin
    rw [hlen1]
    simp only [Bool.false_eq_true, if_false]
    rw [Nat.mod_eq_of_lt hi]
  simp only [GetNextProvider, hup]
  have hav : getAvailableProviders (⟨l, "robin", i⟩ : ProviderManager) = l := hfil
  rw [hav, hne]
  simp only [Bool.false_eq_true, if_false]
  rw [if_pos (by rfl), hrobin]

/-- Robin rotation: starting at cursor `i`, the next `m` selections walk the
list in order. -/
theorem robin_rotation (l : List ProviderState) (now : Nat)
    (hall : ∀ ps ∈ l, ps.isDisabled = false ∧ ps.provider.state = "on")
    (h2 : 2 ≤ l.length) :
    ∀ m i, i + m ≤ l.length →
      selectN ⟨l, "robin", i⟩ now m = ((l.drop i).take m).map some := by
  intro m
  induction m with
  | zero => intro i h; simp [selectN]
  | succ n ih =>
    intro i h
    have hi : i < l.length := by omega
    simp only [selectN]
    rw [robin_step l now i hall h2 hi]
    show l.get? i :: selectN ⟨l, "robin", i + 1⟩ now n = _
    rw [ih (i + 1) (by omega)]
    rw [List.drop_eq_getElem_cons hi, List.take_succ_cons, List.map_cons]
    rw [List.get?_eq_get hi]
    rfl

end RobinLemmas

/-- C2 — Round-robin fairness: with N ≥ 2 always-available providers and a
fresh cursor, N consecutive selections return each provider exactly once in
configuration order starting at index 0; and whenever exactly one provider
is available a selection returns it without consuming the rotation. -/
theorem robin_fairness (l : List ProviderState) (now : Nat)
    (hall : ∀ ps ∈ l, ps.isDisabled = false ∧ ps.provider.state = "on")
    (h2 : 2 ≤ l.length) :
    (selectN ⟨l, "robin", 0⟩ now l.length = l.map some)
    ∧ (∀ pm : ProviderManager, ∀ q : ProviderState,
        pm.routingStrategy = "robin" →
        getAvailableProviders (updateProviderStates now pm) = [q] →
        (GetNextProvider pm now).1 = some q
        ∧ (GetNextProvider pm now).2.robinIndex = pm.robinIndex) := by
  constructor
  · have h := robin_rotation l now hall h2 l.length 0 (by omega)
    simpa using h
  · intro pm q hstrat hone
    have hs : ((updateProviderStates now pm).routingStrategy == "robin") = true := by
      rw [updateProviderStates_strategy, hstrat]
      rfl
    have hrobin : getNextRobin [q] (updateProviderStates now pm).robinIndex
        = (some q, (updateProviderStates now pm).robinIndex) := by
      unfold getNextRobin
      rfl
    have hidx : (updateProviderStates now pm).robinIndex = pm.robinIndex := rfl
    simp only [GetNextProvider, hone, hs, hrobin]
    constructor
    · rfl
    · rw [← hidx]
      rfl

/-- C2 witness: two always-available providers rotate a-then-b. -/
theorem robin_fairness_witness :
    selectN ⟨[initProviderState (provTok "a"),
              initProviderState (provTok "b")], "robin", 0⟩ 0 2
      = [some (initProviderState (provTok "a")),
         some (initProviderState (provTok "b"))] := by
  have h := (robin_fairness
    [initProviderState (provTok "a"), initProviderState (provTok "b")] 0
    (by decide) (by decide)).1
  simpa using h

/-- C1 counterexample: one provider fails 5 times at time 0, so its
cooldown deadline is 300; the selection call made exactly at time 300 — at
the deadline, i.e. with exactly 5 minutes elapsed — does not re-enable it
and returns nothing, because `now.After(disabledUntil)` is strict. -/
theorem cooldown_boundary_counterexample :
    ((findProvider (applyCalls (NewProviderManager "default" [provTok "p"])
        (List.replicate 5 (RouterCall.fail 0 "p"))) "p").map
          ProviderState.disabledUntil = some (some 300))
    ∧ ((GetNextProvider (applyCalls (NewProviderManager "default" [provTok "p"])
        (List.replicate 5 (RouterCall.fail 0 "p"))) 300).1 = none)
    ∧ ((findProvider (GetNextProvider (applyCalls (NewProviderManager "default"
        [provTok "p"]) (List.replicate 5 (RouterCall.fail 0 "p"))) 300).2 "p").map
          ProviderState.isDisabled = some true) := by
  decide

/-- C1 (amended) — Cooldown and recovery: the 5th recordFailure disables the
provider with deadline now + 5 minutes; it stays unavailable for every
selection at or before the deadline; any selected provider is available; the
first selection strictly after the deadline re-enables it (clearing the
disabled flag and deadline, resetting the counter) and, when it is otherwise
eligible, returns it. -/
theorem cooldown_and_recovery (pm : ProviderManager) (name : String)
    (now : Nat) (ps : ProviderState) :
    (findProvider pm name = some ps → ps.failureCount = 4 →
      findProvider (RecordFailure pm now name) name =
        some { ps with failureCount := 5, lastFailureTime := now,
                       isDisabled := true,
                       disabledUntil := some (now + fiveMinutes) })
    ∧ (∀ d now2, ps.isDisabled = true → ps.disabledUntil = some d → now2 ≤ d →
        isAvailable (updateOne now2 ps) = false)
    ∧ (∀ q pm1, GetNextProvider pm now = (some q, pm1) → isAvailable q = true)
    ∧ (∀ d now2, ps.isDisabled = true → ps.disabledUntil = some d → d < now2 →
        updateOne now2 ps =
          { ps with isDisabled := false, disabledUntil := none,
                    failureCount := 0 })
    ∧ (∀ d now2, pm.providers = [ps] → ps.isDisabled = true →
        ps.disabledUntil = some d → d < now2 → ps.provider.state = "on" →
        (GetNextProvider pm now2).1 =
          some { ps with isDisabled := false, disabledUntil := none,
                         failureCount := 0 }) := by
  refine ⟨?_, ?_, ?_, ?_, ?_⟩
  · intro hfind hfc
    have h := recordFailureOne_find now name pm.providers ps hfind
    have hbump : bumpFailure now ps =
        { ps with failureCount := 5, lastFailureTime := now,
                  isDisabled := true,
                  disabledUntil := some (now + fiveMinutes) } := by
      unfold bumpFailure
      rw [hfc]
      simp
    show (recordFailureOne now name pm.providers).find? _ = _
    rw [h, hbump]
  · intro d now2 hdis hd hle
    rw [updateOne_before_deadline now2 ps d hd hle]
    exact not_available_of_disabled ps hdis
  · intro q pm1 hsel
    exact (GetNextProvider_sel pm now q pm1 hsel).2.1
  · intro d now2 hdis hd hlt
    exact updateOne_after_deadline now2 ps d hdis hd hlt
  · intro d now2 hprov hdis hd hlt hstate
    have hrps := updateOne_after_deadline now2 ps d hdis hd hlt
    have hupd : (updateProviderStates now2 pm).providers
        = [{ ps with isDisabled := false, disabledUntil := none,
                     failureCount := 0 }] := by
      show pm.providers.map (updateOne now2) = _
      rw [hprov]
      simp [hrps]
    have hava : isAvailable { ps with isDisabled := false,
                                      disabledUntil := none,
                                      failureCount := 0 } = true := by
      simp [isAvailable, hstate]
    have havail : getAvailableProviders (updateProviderStates now2 pm)
        = [{ ps with isDisabled := false, disabledUntil := none,
                     failureCount := 0 }] := by
      show (updateProviderStates now2 pm).providers.filter isAvailable = _
      rw [hupd]
      simp [hava]
    simp only [GetNextProvider, havail]
    by_cases hstrat :
        ((updateProviderStates now2 pm).routingStrategy == "robin") = true
    · rw [if_neg (by simp), if_pos hstrat]
      rfl
    · rw [if_neg (by simp), if_neg hstrat]
      show getNextDefault (updateProviderStates now2 pm).providers _ = _
      rw [hupd]
      unfold getNextDefault
      rw [find?_cons_true _ _ _ (by simp)]

/-- C1 witness: the cooled-down fixture is re-enabled and returned by the
selection at time 301 (strictly after its deadline 300). -/
theorem cooldown_and_recovery_witness :
    (GetNextProvider pmCooled 301).1 =
      some { psCooled with isDisabled := false, disabledUntil := none,
                           failureCount := 0 } :=
  (cooldown_and_recovery pmCooled "p" 0 psCooled).2.2.2.2 300 301 rfl rfl rfl
    (by decide) rfl

section SweepLemmas

/-- Deleting a list of ids in sequence filters out every pair whose key is
among them. -/
theorem foldl_deleteClient (ids : List String)
    (cs : List (String × ClientInfo)) :
    ids.foldl deleteClient cs
      = cs.filter (fun kv => !(ids.contains kv.1)) := by
  induction ids generalizing cs with
  | nil => simp
  | cons id rest ih =>
    simp only [List.foldl_cons]
    rw [ih]
    unfold deleteClient
    rw [List.filter_filter]
    apply List.filter_congr
    intro kv _
    show ((!(rest.contains kv.1)) && (kv.1 != id))
        = !((id :: rest).contains kv.1)
    rw [List.contains_cons]
    cases hkv : (kv.1 == id) <;> cases hr : rest.contains kv.1 <;>
      simp [bne, hkv, hr]

/-- In a list with pairwise distinct keys, equal keys force equal pairs. -/
theorem nodup_key_eq (cs : List (String × ClientInfo))
    (hnodup : (cs.map Prod.fst).Nodup) (kv kw : String × ClientInfo)
    (hkv : kv ∈ cs) (hkw : kw ∈ cs) (hk : kv.1 = kw.1) : kv = kw := by
  induction cs with
  | nil => cases hkv
  | cons x xs ih =>
    have hnodup2 : (x.1 ∉ xs.map Prod.fst) ∧ (xs.map Prod.fst).Nodup := by
      rw [List.map_cons, List.nodup_cons] at hnodup
      exact hnodup
    rcases List.mem_cons.mp hkv with rfl | hkv2
    · rcases List.mem_cons.mp hkw with rfl | hkw2
      · rfl
      · exfalso
        have hmm : kw.1 ∈ xs.map Prod.fst := List.mem_map.mpr ⟨kw, hkw2, rfl⟩
        rw [← hk] at hmm
        exact hnodup2.1 hmm
    · rcases List.mem_cons.mp hkw with rfl | hkw2
      · exfalso
        have hmm : kv.1 ∈ xs.map Prod.fst := List.mem_map.mpr ⟨kv, hkv2, rfl⟩
        rw [hk] at hmm
        exact hnodup2.1 hmm
      · exact ih hnodup2.2 hkv2 hkw2

/-- With distinct keys, the key of a pair of the map is among the keys of
the inactive pairs exactly when the pair itself is inactive. -/
theorem contains_removed_iff (cm : ClientManager) (timeout now : Nat)
    (hnodup : (cm.clients.map Prod.fst).Nodup)
    (kv : String × ClientInfo) (hkv : kv ∈ cm.clients) :
    ((cm.clients.filter (isInactive timeout now)).map Prod.fst).contains kv.1
      = isInactive timeout now kv := by
  cases hin : isInactive timeout now kv with
  | true =>
    have hmem : kv ∈ cm.clients.filter (isInactive timeout now) :=
      List.mem_filter.mpr ⟨hkv, hin⟩
    exact (contains_iff_mem _ _).mpr (List.mem_map.mpr ⟨kv, hmem, rfl⟩)
  | false =>
    cases hcc : ((cm.clients.filter (isInactive timeout now)).map
        Prod.fst).contains kv.1 with
    | false => rfl
    | true =>
      exfalso
      have hmem := (contains_iff_mem _ _).mp hcc
      rcases List.mem_map.mp hmem with ⟨kw, hkw, hkeq⟩
      have hkw2 := List.mem_filter.mp hkw
      have : kw = kv :=
        nodup_key_eq cm.clients hnodup kw kv hkw2.1 hkv hkeq
      rw [this, hin] at hkw2
      exact Bool.noConfusion hkw2.2

end SweepLemmas

/-- C8 — Session sweep lifecycle: a sweep removes exactly the sessions whose
last heartbeat is older than the window, reports their number, and invokes
the registered empty-callback exactly once when (and only when) it removed
at least one session and emptied the set. -/
theorem session_sweep (cm : ClientManager) (timeout now : Nat)
    (hnodup : (cm.clients.map Prod.fst).Nodup) (hcb : cm.hasOnEmpty = true) :
    ((CleanupInactiveClients cm timeout now).cm.clients
        = cm.clients.filter (fun kv => !(isInactive timeout now kv)))
    ∧ ((CleanupInactiveClients cm timeout now).removedCount
        = (cm.clients.filter (isInactive timeout now)).length)
    ∧ ((CleanupInactiveClients cm timeout now).callbackInvocations
        = if (CleanupInactiveClients cm timeout now).cm.clients.isEmpty = true
            ∧ 0 < (CleanupInactiveClients cm timeout now).removedCount
          then 1 else 0)
    ∧ ((CleanupInactiveClients cm timeout now).removedCount = 0 →
        (CleanupInactiveClients cm timeout now).callbackInvocations = 0) := by
  have hnew : (CleanupInactiveClients cm timeout now).cm.clients
      = cm.clients.filter (fun kv => !(isInactive timeout now kv)) := by
    show ((cm.clients.filter (isInactive timeout now)).map
        Prod.fst).foldl deleteClient cm.clients = _
    rw [foldl_deleteClient]
    apply List.filter_congr
    intro kv hkv
    rw [contains_removed_iff cm timeout now hnodup kv hkv]
  have hcount : (CleanupInactiveClients cm timeout now).removedCount
      = (cm.clients.filter (isInactive timeout now)).length := by
    show ((cm.clients.filter (isInactive timeout now)).map Prod.fst).length = _
    rw [List.length_map]
  have hcall : (CleanupInactiveClients cm timeout now).callbackInvocations
      = (if ((CleanupInactiveClients cm timeout now).cm.clients.isEmpty
            && !(((cm.clients.filter (isInactive timeout now)).map
                Prod.fst).isEmpty)
            && cm.hasOnEmpty) = true then 1 else 0) := rfl
  have hBlen : ((cm.clients.filter (isInactive timeout now)).map
      Prod.fst).isEmpty
      = ((cm.clients.filter (isInactive timeout now)).length == 0) := by
    cases hf : cm.clients.filter (isInactive timeout now) <;> simp [hf]
  refine ⟨hnew, hcount, ?_, ?_⟩
  · rw [hcall, hcb]
    by_cases hA : (CleanupInactiveClients cm timeout now).cm.clients.isEmpty
        = true
    · by_cases hB : ((cm.clients.filter (isInactive timeout now)).map
          Prod.fst).isEmpty = true
      · have hnot : ¬ ((CleanupInactiveClients cm timeout now).cm.clients.isEmpty
              = true
            ∧ 0 < (CleanupInactiveClients cm timeout now).removedCount) := by
          intro hcon
          have h2 := hcon.2
          rw [hcount] at h2
          rw [hBlen] at hB
          have hz : (cm.clients.filter (isInactive timeout now)).length = 0 := by
            simpa using hB
          omega
        rw [if_neg hnot, hA, hB]
        simp
      · have hB' : ((cm.clients.filter (isInactive timeout now)).map
            Prod.fst).isEmpty = false := by
          cases hBc : ((cm.clients.filter (isInactive timeout now)).map
              Prod.fst).isEmpty with
          | false => rfl
          | true => exact absurd hBc hB
        have hpos : ((CleanupInactiveClients cm timeout now).cm.clients.isEmpty
              = true
            ∧ 0 < (CleanupInactiveClients cm timeout now).removedCount) := by
          refine ⟨hA, ?_⟩
          rw [hcount]
          rw [hBlen] at hB'
          have hz : ¬ (cm.clients.filter (isInactive timeout now)).length = 0 := by
            simpa using hB'
          omega
        rw [if_pos hpos, hA, hB']
        simp
    · have hA' : (CleanupInactiveClients cm timeout now).cm.clients.isEmpty
          = false := by
        cases hAc : (CleanupInactiveClients cm timeout now).cm.clients.isEmpty with
        | false => rfl
        | true => exact absurd hAc hA
      have hnot : ¬ ((CleanupInactiveClients cm timeout now).cm.clients.isEmpty
            = true
          ∧ 0 < (CleanupInactiveClients cm timeout now).removedCount) := by
        intro hcon
        exact hA hcon.1
      rw [if_neg hnot, hA']
      simp
  · intro h0
    rw [hcall, hcb]
    rw [hcount] at h0
    have hB : ((cm.clients.filter (isInactive timeout now)).map
        Prod.fst).isEmpty = true := by
      rw [hBlen]
      simp [h0]
    rw [hB]
    simp

/-- C8 witness: a single stale session is removed, the set empties, the
callback fires. -/
theorem session_sweep_witness :
    (CleanupInactiveClients ⟨[("X", ⟨"X", 0, 0, 1, "h"⟩)], true⟩ 300 301).cm.clients
      = ([("X", ⟨"X", 0, 0, 1, "h"⟩)] : List (String × ClientInfo)).filter
          (fun kv => !(isInactive 300 301 kv)) :=
  (session_sweep ⟨[("X", ⟨"X", 0, 0, 1, "h"⟩)], true⟩ 300 301
    (by decide) rfl).1

section JsonLemmas

/-- String BEq is symmetric in falsity. -/
theorem beq_false_symm {a b : String} (h : (a == b) = false) :
    (b == a) = false := by
  simp at h ⊢
  exact fun e => h e.symm

/-- Replacing the bindings of key `k` does not affect lookups of other
keys. -/
theorem lookup_map_replace (m : List (String × JValue)) (k k2 : String)
    (v : JValue) (hne : (k2 == k) = false) :
    (m.map (fun kv => if kv.1 == k then (k, v) else kv)).lookup k2
      = m.lookup k2 := by
  induction m with
  | nil => rfl
  | cons x xs ih =>
    obtain ⟨a, b⟩ := x
    rw [List.map_cons]
    dsimp only
    by_cases ha : (a == k) = true
    · rw [if_pos ha]
      have hak : a = k := by simpa using ha
      have h2 : (k2 == a) = false := by rw [hak]; exact hne
      simp only [List.lookup, hne, h2]
      exact ih
    · rw [if_neg ha]
      by_cases h2 : (k2 == a) = true
      · simp only [List.lookup, h2]
      · have h2' : (k2 == a) = false := by
          cases hc : (k2 == a) with
          | false => rfl
          | true => exact absurd hc h2
        simp only [List.lookup, h2']
        exact ih

/-- Reading back the inserted key yields the inserted value. -/
theorem mapLookup_mapInsert_self (m : List (String × JValue)) (k : String)
    (v : JValue) : mapLookup (mapInsert m k v) k = some v := by
  induction m with
  | nil => simp [mapInsert, mapLookup, List.lookup]
  | cons x xs ih =>
    obtain ⟨a, b⟩ := x
    by_cases ha : (a == k) = true
    · have hany : ((a, b) :: xs).any (fun kv => kv.1 == k) = true := by
        simp [List.any_cons, ha]
      show mapLookup (mapInsert ((a, b) :: xs) k v) k = some v
      unfold mapInsert
      rw [if_pos hany]
      simp only [List.map_cons, ha, if_pos]
      simp [mapLookup, List.lookup]
    · have ha' : (a == k) = false := by
        cases hc : (a == k) with
        | false => rfl
        | true => exact absurd hc ha
      have hka : (k == a) = false := beq_false_symm ha'
      by_cases hany : xs.any (fun kv => kv.1 == k) = true
      · have hanyc : ((a, b) :: xs).any (fun kv => kv.1 == k) = true := by
          simp [List.any_cons, hany]
        have hxs : mapInsert xs k v
            = xs.map (fun kv => if kv.1 == k then (k, v) else kv) := by
          unfold mapInsert
          rw [if_pos hany]
        show mapLookup (mapInsert ((a, b) :: xs) k v) k = some v
        unfold mapInsert
        rw [if_pos hanyc]
        simp only [List.map_cons, ha', Bool.false_eq_true, if_false]
        show (((a, b) :: _).lookup k) = some v
        simp only [List.lookup, hka]
        rw [← hxs]
        exact ih
      · have hany' : xs.any (fun kv => kv.1 == k) = false := by
          cases hc : xs.any (fun kv => kv.1 == k) with
          | false => rfl
          | true => exact absurd hc hany
        have hanyc : ((a, b) :: xs).any (fun kv => kv.1 == k) = false := by
          simp [List.any_cons, ha', hany']
        have hxs : mapInsert xs k v = xs ++ [(k, v)] := by
          unfold mapInsert
          rw [hany']
          simp
        show mapLookup (mapInsert ((a, b) :: xs) k v) k = some v
        unfold mapInsert
        rw [hanyc]
        simp only [Bool.false_eq_true, if_false, List.cons_append]
        show (((a, b) :: (xs ++ [(k, v)])).lookup k) = some v
        simp only [List.lookup, hka]
        rw [← hxs]
        exact ih

/-- Inserting a key does not affect lookups of other keys. -/
theorem mapLookup_mapInsert_other (m : List (String × JValue))
    (k k2 : String) (v : JValue) (hne : k2 ≠ k) :
    mapLookup (mapInsert m k v) k2 = mapLookup m k2 := by
  have hne' : (k2 == k) = false := by simpa using hne
  unfold mapInsert mapLookup
  by_cases hany : m.any (fun kv => kv.1 == k) = true
  · rw [if_pos hany]
    exact lookup_map_replace m k k2 v hne'
  · have hany' : m.any (fun kv => kv.1 == k) = false := by
      cases hc : m.any (fun kv => kv.1 == k) with
      | false => rfl
      | true => exact absurd hc hany
    rw [hany']
    simp only [Bool.false_eq_true, if_false]
    induction m with
    | nil => simp [List.lookup, hne']
    | cons x xs ih =>
      obtain ⟨a, b⟩ := x
      by_cases h2 : (k2 == a) = true
      · simp [List.lookup, h2]
      · have h2' : (k2 == a) = false := by
          cases hc : (k2 == a) with
          | false => rfl
          | true => exact absurd hc h2
        have hxsany : xs.any (fun kv => kv.1 == k) = false := by
          rw [List.any_cons] at hany'
          exact (Bool.or_eq_false_iff.mp hany').2
        simp only [List.cons_append, List.lookup, h2']
        exact ih (by simp [hxsany]) hxsany

end JsonLemmas

/-- C4 counterexample: for the body \x7b"z":1,"a":2,"model":"x"\x7d and
target model "t", a byte-for-byte-preserving rewrite would forward
\x7b"z":1,"a":2,"model":"t"\x7d; the code instead re-serializes the Go map
with sorted keys and forwards \x7b"a":2,"model":"t","z":1\x7d — other
fields' bytes (their order) are not preserved. -/
theorem model_rewrite_not_bytewise :
    modifyRequestModel "\x7b\"z\":1,\"a\":2,\"model\":\"x\"\x7d" "t"
      = some "\x7b\"a\":2,\"model\":\"t\",\"z\":1\x7d"
    ∧ ("\x7b\"a\":2,\"model\":\"t\",\"z\":1\x7d" : String)
      ≠ "\x7b\"z\":1,\"a\":2,\"model\":\"t\"\x7d" := by
  exact ⟨by decide, by decide⟩

/-- C4 (amended) — Model rewrite semantics: when the rewrite succeeds, the
forwarded body is the compact, key-sorted re-serialization of the parsed
object with "model" set to the target; every other top-level field keeps
exactly its parsed value ("model" maps to the target), but field order and
formatting are normalized rather than preserved byte-for-byte. -/
theorem model_rewrite_semantics (body targetModel out : String)
    (h : modifyRequestModel body targetModel = some out) :
    ∃ m, goUnmarshalObj body = some m
      ∧ out = jsonMarshal (sortJson (.obj
          (mapInsert m "model" (.str targetModel))))
      ∧ mapLookup (mapInsert m "model" (.str targetModel)) "model"
          = some (.str targetModel)
      ∧ ∀ k, k ≠ "model" →
          mapLookup (mapInsert m "model" (.str targetModel)) k
            = mapLookup m k := by
  unfold modifyRequestModel at h
  rcases hg : goUnmarshalObj body with _ | m
  · rw [hg] at h
    exact Option.noConfusion h
  · rw [hg] at h
    refine ⟨m, rfl, (Option.some.inj h).symm,
      mapLookup_mapInsert_self m "model" (.str targetModel),
      fun k hk => mapLookup_mapInsert_other m "model" k (.str targetModel) hk⟩

/-- C4 witness: the amended semantics at the concrete body
\x7b"z":1,"model":"x"\x7d with target "t". -/
theorem model_rewrite_semantics_witness :
    ∃ m, goUnmarshalObj "\x7b\"z\":1,\"model\":\"x\"\x7d" = some m
      ∧ "\x7b\"model\":\"t\",\"z\":1\x7d" = jsonMarshal (sortJson (.obj
          (mapInsert m "model" (.str "t"))))
      ∧ mapLookup (mapInsert m "model" (.str "t")) "model"
          = some (.str "t")
      ∧ ∀ k, k ≠ "model" →
          mapLookup (mapInsert m "model" (.str "t")) k = mapLookup m k :=
  model_rewrite_semantics "\x7b\"z\":1,\"model\":\"x\"\x7d" "t"
    "\x7b\"model\":\"t\",\"z\":1\x7d" (by decide)

section InvariantLemmas

/-- The manager GetNextProvider returns always carries the reconciled
provider list, whatever the strategy. -/
theorem GetNextProvider_snd_providers (pm : ProviderManager) (now : Nat) :
    (GetNextProvider pm now).2.providers
      = (updateProviderStates now pm).providers := by
  simp only [GetNextProvider]
  split
  · rfl
  · split
    · rfl
    · rfl

/-- Elements of recordSuccessOne come from the original list with at most
the failure count reset. -/
theorem recordSuccessOne_shape (name : String) (l : List ProviderState)
    (q : ProviderState) (hq : q ∈ recordSuccessOne name l) :
    ∃ p ∈ l, q = p ∨ q = { p with failureCount := 0 } := by
  induction l with
  | nil => simp [recordSuccessOne] at hq
  | cons x xs ih =>
    by_cases hx : (x.provider.name == name) = true
    · by_cases hc : 0 < x.failureCount
      · have hs : recordSuccessOne name (x :: xs)
            = { x with failureCount := 0 } :: xs := by
          simp [recordSuccessOne, hx, hc]
        rw [hs] at hq
        rcases List.mem_cons.mp hq with rfl | hq2
        · exact ⟨x, List.mem_cons_self _ _, Or.inr rfl⟩
        · exact ⟨q, List.mem_cons_of_mem _ hq2, Or.inl rfl⟩
      · have hs : recordSuccessOne name (x :: xs) = x :: xs := by
          simp [recordSuccessOne, hx, hc]
        rw [hs] at hq
        rcases List.mem_cons.mp hq with rfl | hq2
        · exact ⟨q, List.mem_cons_self _ _, Or.inl rfl⟩
        · exact ⟨q, List.mem_cons_of_mem _ hq2, Or.inl rfl⟩
    · have hs : recordSuccessOne name (x :: xs)
          = x :: recordSuccessOne name xs := by
        simp [recordSuccessOne, hx]
      rw [hs] at hq
      rcases List.mem_cons.mp hq with rfl | hq2
      · exact ⟨q, List.mem_cons_self _ _, Or.inl rfl⟩
      · obtain ⟨p, hp, hqp⟩ := ih hq2
        exact ⟨p, List.mem_cons_of_mem _ hp, hqp⟩

/-- Elements of recordFailureOne come from the original list, with the
failure update applied only to a provider bearing the recorded name. -/
theorem recordFailureOne_shape (now : Nat) (name : String)
    (l : List ProviderState) (q : ProviderState)
    (hq : q ∈ recordFailureOne now name l) :
    ∃ p ∈ l, q = p ∨ (p.provider.name = name ∧ q = bumpFailure now p) := by
  induction l with
  | nil => simp [recordFailureOne] at hq
  | cons x xs ih =>
    by_cases hx : (x.provider.name == name) = true
    · have hs : recordFailureOne now name (x :: xs)
          = bumpFailure now x :: xs := by
        simp [recordFailureOne, hx]
      rw [hs] at hq
      rcases List.mem_cons.mp hq with rfl | hq2
      · exact ⟨x, List.mem_cons_self _ _,
          Or.inr ⟨by simpa using hx, rfl⟩⟩
      · exact ⟨q, List.mem_cons_of_mem _ hq2, Or.inl rfl⟩
    · have hs : recordFailureOne now name (x :: xs)
          = x :: recordFailureOne now name xs := by
        simp [recordFailureOne, hx]
      rw [hs] at hq
      rcases List.mem_cons.mp hq with rfl | hq2
      · exact ⟨q, List.mem_cons_self _ _, Or.inl rfl⟩
      · obtain ⟨p, hp, hqp⟩ := ih hq2
        exact ⟨p, List.mem_cons_of_mem _ hp, hqp⟩

/-- One Router call preserves the "every provider named nm is permanently
disabled (no deadline)" invariant, provided the call is not a recordFailure
on that name. -/
theorem inv_applyCall (nm : String) (pm : ProviderManager) (c : RouterCall)
    (hinv : ∀ ps ∈ pm.providers, ps.provider.name = nm →
      ps.isDisabled = true ∧ ps.disabledUntil = none)
    (hc : ∀ now name, c = RouterCall.fail now name → ¬ name = nm) :
    ∀ ps ∈ (applyCall pm c).providers, ps.provider.name = nm →
      ps.isDisabled = true ∧ ps.disabledUntil = none := by
  intro ps hps hname
  cases c with
  | select now =>
    rw [show applyCall pm (RouterCall.select now)
        = (GetNextProvider pm now).2 from rfl,
      GetNextProvider_snd_providers] at hps
    rcases List.mem_map.mp hps with ⟨p, hp, rfl⟩
    have hpname : p.provider.name = nm := by
      rw [← updateOne_provider now p]
      exact hname
    obtain ⟨hdis, hnone⟩ := hinv p hp hpname
    rw [updateOne_of_no_deadline now p hnone]
    exact hinv p hp hpname
  | fail now name =>
    have hps2 : ps ∈ recordFailureOne now name pm.providers := hps
    obtain ⟨p, hp, hcase⟩ := recordFailureOne_shape now name pm.providers ps hps2
    rcases hcase with rfl | ⟨hpname, rfl⟩
    · exact hinv _ hp hname
    · exfalso
      have hqname : (bumpFailure now p).provider.name = nm := hname
      rw [bumpFailure_provider] at hqname
      rw [hpname] at hqname
      exact hc now name rfl hqname
  | succeed name =>
    have hps2 : ps ∈ recordSuccessOne name pm.providers := hps
    obtain ⟨p, hp, hcase⟩ := recordSuccessOne_shape name pm.providers ps hps2
    rcases hcase with rfl | rfl
    · exact hinv _ hp hname
    · exact hinv p hp (by simpa using hname)

end InvariantLemmas

/-- C9 counterexample: a provider with neither credential is disabled at
construction with no deadline, yet five recordFailure calls bearing its
name give it a cooldown deadline, and the selection at time 301 re-enables
and returns it — so recordFailure sequences can bring it into the
available set. -/
theorem missing_credentials_counterexample :
    (initProviderState provNoCreds).isDisabled = true
    ∧ (initProviderState provNoCreds).disabledUntil = none
    ∧ ((GetNextProvider (applyCalls (NewProviderManager "default" [provNoCreds])
          (List.replicate 5 (RouterCall.fail 0 "p"))) 301).1).map
        (fun q => q.provider.name) = some "p" := by
  decide

/-- C9 (amended) — Permanent disable on missing credentials: a provider with
neither credential field is disabled at construction with no deadline, and
no sequence of selectProvider, recordSuccess, and recordFailure-on-other-
names calls ever makes a provider of that name available or selectable;
only recordFailure calls bearing its name can (by reaching 5) install a
deadline whose expiry re-enables it. -/
theorem missing_credentials_stay_disabled (strategy nm : String)
    (cfg : List Provider) (calls : List RouterCall)
    (hcfg : ∀ p ∈ cfg, p.name = nm →
      envGet p.env "ANTHROPIC_AUTH_TOKEN" = ""
      ∧ envGet p.env "ANTHROPIC_API_KEY" = "")
    (hcalls : ∀ now name, RouterCall.fail now name ∈ calls → ¬ name = nm) :
    (∀ ps ∈ (applyCalls (NewProviderManager strategy cfg) calls).providers,
        ps.provider.name = nm →
        ps.isDisabled = true ∧ ps.disabledUntil = none
        ∧ isAvailable ps = false)
    ∧ (∀ now q pm1,
        GetNextProvider (applyCalls (NewProviderManager strategy cfg) calls) now
          = (some q, pm1) → ¬ q.provider.name = nm) := by
  have hinit : ∀ ps ∈ (NewProviderManager strategy cfg).providers,
      ps.provider.name = nm →
      ps.isDisabled = true ∧ ps.disabledUntil = none := by
    intro ps hps hname
    rcases List.mem_map.mp hps with ⟨p, hp, rfl⟩
    have hpname : p.name = nm := hname
    obtain ⟨htok, hkey⟩ := hcfg p hp hpname
    refine ⟨?_, rfl⟩
    show ((p.state != "on")
      || (envGet p.env "ANTHROPIC_AUTH_TOKEN" == ""
          && envGet p.env "ANTHROPIC_API_KEY" == "")) = true
    rw [htok, hkey]
    simp
  have hfold : ∀ (calls2 : List RouterCall) (pm : ProviderManager),
      (∀ now name, RouterCall.fail now name ∈ calls2 → ¬ name = nm) →
      (∀ ps ∈ pm.providers, ps.provider.name = nm →
        ps.isDisabled = true ∧ ps.disabledUntil = none) →
      ∀ ps ∈ (applyCalls pm calls2).providers, ps.provider.name = nm →
        ps.isDisabled = true ∧ ps.disabledUntil = none := by
    intro calls2
    induction calls2 with
    | nil => intro pm _ h; exact h
    | cons c cs ih =>
      intro pm hcs hinv
      exact ih (applyCall pm c)
        (fun now name hmem => hcs now name (List.mem_cons_of_mem _ hmem))
        (inv_applyCall nm pm c hinv
          (fun now name hceq => hcs now name (hceq ▸ List.mem_cons_self _ _)))
  have hfinal := hfold calls (NewProviderManager strategy cfg) hcalls hinit
  constructor
  · intro ps hps hname
    obtain ⟨hdis, hnone⟩ := hfinal ps hps hname
    exact ⟨hdis, hnone, not_available_of_disabled ps hdis⟩
  · intro now q pm1 hsel hname
    obtain ⟨hmem, hav, hprov, _⟩ := GetNextProvider_sel _ now q pm1 hsel
    rw [hprov] at hmem
    rcases List.mem_map.mp hmem with ⟨p, hp, rfl⟩
    have hpname : p.provider.name = nm := by
      rw [← updateOne_provider now p]
      exact hname
    obtain ⟨hdis, hnone⟩ := hfinal p hp hpname
    rw [updateOne_of_no_deadline now p hnone] at hav
    rw [not_available_of_disabled p hdis] at hav
    exact Bool.noConfusion hav

/-- C9 witness: after a selection and a recordSuccess, the credential-less
provider's state is still permanently disabled and unavailable. -/
theorem missing_credentials_stay_disabled_witness :
    (initProviderState provNoCreds).isDisabled = true
    ∧ (initProviderState provNoCreds).disabledUntil = none
    ∧ isAvailable (initProviderState provNoCreds) = false :=
  (missing_credentials_stay_disabled "default" "p" [provNoCreds]
      [RouterCall.select 0, RouterCall.succeed "p"]
      (by decide)
      (by intro now name h; simp at h)).1
    (initProviderState provNoCreds) (by decide) rfl

end CCEnv
